import Mathlib

/-
Verification of the release-snapshot builder in `src/pypiversion/main.py`.

The script polls a package index for the latest release of each configured
package, builds one flat record per package, and writes three artifacts
(YAML snapshot, rendered HTML, RSS feed).  This file is a shallow embedding
of that script: every function below is translated from the Python source.

Modelling conventions:
* Times are instants measured in seconds (as integers); the Python
  `datetime` values are linearly ordered instants and `timedelta.days` is
  floor division of the difference by 86400 seconds.  The `strftime`
  reformatting of the parsed upload time applied before storing it in the
  record is a fixed injective encoding and is left implicit: the record
  keeps the parsed instant.
* The XML-RPC index client is a record of three pure functions (the script
  performs one synchronous call at a time and treats the responses as
  values).
* A raised `KeyError` is modelled as `Except.error`; the artifact files are
  modelled by the data that the script serializes into them (the YAML, the
  template bindings, and the RSS channel object), the actual serializers
  being external deterministic codecs.
* `hashlib.md5` is embedded concretely (section below), so digests compute.
-/

set_option maxRecDepth 100000

namespace PyPiVersions

/-- Reduce a natural number to a 32-bit word. -/
def w32 (n : Nat) : Nat := n % 4294967296

/-- Bitwise complement on 32-bit words. -/
def wnot (x : Nat) : Nat := 4294967295 - w32 x

/-- Left rotation of a 32-bit word by `c` positions. -/
def rotl (x c : Nat) : Nat := w32 (x <<< c) ||| (w32 x >>> (32 - c))

/-- UTF-8 encoding of a single character as a list of bytes. -/
def utf8Bytes (c : Char) : List Nat :=
  let n := c.toNat
  if n < 128 then [n]
  else if n < 2048 then [192 ||| (n >>> 6), 128 ||| (n &&& 63)]
  else if n < 65536 then
    [224 ||| (n >>> 12), 128 ||| ((n >>> 6) &&& 63), 128 ||| (n &&& 63)]
  else
    [240 ||| (n >>> 18), 128 ||| ((n >>> 12) &&& 63),
     128 ||| ((n >>> 6) &&& 63), 128 ||| (n &&& 63)]

/-- UTF-8 byte sequence of a string. -/
def strBytes (s : String) : List Nat := s.data.flatMap utf8Bytes

/-- The `k` little-endian bytes of `n`. -/
def leBytes : Nat → Nat → List Nat
  | 0, _ => []
  | k + 1, n => n % 256 :: leBytes k (n / 256)

/-- MD5 padding: append 0x80, zero bytes to 56 mod 64, then the 64-bit bit length. -/
def padMessage (msg : List Nat) : List Nat :=
  let len := msg.length
  let z := (64 + 56 - ((len + 1) % 64)) % 64
  msg ++ [128] ++ List.replicate z 0 ++ leBytes 8 ((8 * len) % 18446744073709551616)

/-- Split a byte list into 64-byte blocks (fuel-driven structural recursion;
the fuel is an upper bound on the number of blocks and each step consumes 64 bytes). -/
def toBlocksAux : Nat → List Nat → List (List Nat)
  | 0, _ => []
  | _, [] => []
  | fuel + 1, x :: xs => ((x :: xs).take 64) :: toBlocksAux fuel ((x :: xs).drop 64)

/-- Split a byte list into 64-byte blocks. -/
def toBlocks (l : List Nat) : List (List Nat) := toBlocksAux l.length l

/-- The 64 MD5 sine-derived round constants. -/
def md5K : List Nat :=
  [0xd76aa478, 0xe8c7b756, 0x242070db, 0xc1bdceee,
   0xf57c0faf, 0x4787c62a, 0xa8304613, 0xfd469501,
   0x698098d8, 0x8b44f7af, 0xffff5bb1, 0x895cd7be,
   0x6b901122, 0xfd987193, 0xa679438e, 0x49b40821,
   0xf61e2562, 0xc040b340, 0x265e5a51, 0xe9b6c7aa,
   0xd62f105d, 0x02441453, 0xd8a1e681, 0xe7d3fbc8,
   0x21e1cde6, 0xc33707d6, 0xf4d50d87, 0x455a14ed,
   0xa9e3e905, 0xfcefa3f8, 0x676f02d9, 0x8d2a4c8a,
   0xfffa3942, 0x8771f681, 0x6d9d6122, 0xfde5380c,
   0xa4beea44, 0x4bdecfa9, 0xf6bb4b60, 0xbebfbc70,
   0x289b7ec6, 0xeaa127fa, 0xd4ef3085, 0x04881d05,
   0xd9d4d039, 0xe6db99e5, 0x1fa27cf8, 0xc4ac5665,
   0xf4292244, 0x432aff97, 0xab9423a7, 0xfc93a039,
   0x655b59c3, 0x8f0ccc92, 0xffeff47d, 0x85845dd1,
   0x6fa87e4f, 0xfe2ce6e0, 0xa3014314, 0x4e0811a1,
   0xf7537e82, 0xbd3af235, 0x2ad7d2bb, 0xeb86d391]

/-- Per-round shift amounts. -/
def md5S (i : Nat) : Nat :=
  if i < 16 then [7, 12, 17, 22].getD (i % 4) 0
  else if i < 32 then [5, 9, 14, 20].getD (i % 4) 0
  else if i < 48 then [4, 11, 16, 23].getD (i % 4) 0
  else [6, 10, 15, 21].getD (i % 4) 0

/-- Round nonlinear function. -/
def md5F (i b c d : Nat) : Nat :=
  if i < 16 then (b &&& c) ||| (wnot b &&& d)
  else if i < 32 then (d &&& b) ||| (wnot d &&& c)
  else if i < 48 then b ^^^ c ^^^ d
  else c ^^^ (b ||| wnot d)

/-- Message-word index used in round `i`. -/
def md5g (i : Nat) : Nat :=
  if i < 16 then i
  else if i < 32 then (5 * i + 1) % 16
  else if i < 48 then (3 * i + 5) % 16
  else (7 * i) % 16

/-- Little-endian 32-bit word `g` of a 64-byte block. -/
def wordAt (block : List Nat) (g : Nat) : Nat :=
  block.getD (4 * g) 0 + 256 * block.getD (4 * g + 1) 0 +
    65536 * block.getD (4 * g + 2) 0 + 16777216 * block.getD (4 * g + 3) 0

/-- One MD5 round. -/
def md5Step (block : List Nat) (st : Nat × Nat × Nat × Nat) (i : Nat) :
    Nat × Nat × Nat × Nat :=
  let (a, b, c, d) := st
  let f := w32 (md5F i b c d + a + md5K.getD i 0 + wordAt block (md5g i))
  (d, w32 (b + rotl f (md5S i)), b, c)

/-- Process one 64-byte block. -/
def md5Block (st : Nat × Nat × Nat × Nat) (block : List Nat) :
    Nat × Nat × Nat × Nat :=
  let r := (List.range 64).foldl (md5Step block) st
  (w32 (st.1 + r.1), w32 (st.2.1 + r.2.1), w32 (st.2.2.1 + r.2.2.1),
   w32 (st.2.2.2 + r.2.2.2))

/-- The 16-byte MD5 digest of the UTF-8 bytes of a string. -/
def md5Digest (s : String) : List Nat :=
  let blocks := toBlocks (padMessage (strBytes s))
  let r := blocks.foldl md5Block (0x67452301, 0xefcdab89, 0x98badcfe, 0x10325476)
  leBytes 4 r.1 ++ leBytes 4 r.2.1 ++ leBytes 4 r.2.2.1 ++ leBytes 4 r.2.2.2

/-- Lowercase hex character for a value below 16. -/
def hexChar (n : Nat) : Char := if n < 10 then Char.ofNat (48 + n) else Char.ofNat (87 + n)

/-- Lowercase hex string of a byte list. -/
def bytesHex (l : List Nat) : String :=
  String.mk (l.foldr (fun b acc => hexChar (b / 16) :: hexChar (b % 16) :: acc) [])

/-- Hex digest of the MD5 hash of a string, as `hashlib.md5(s).hexdigest()`. -/
def md5_hex (s : String) : String := bytesHex (md5Digest s)

/-! ## Data model

The XML-RPC index responses used by `main` (lines 77, 79, 84 of the source)
and the per-package record dictionary it builds (lines 82-100). -/

/-- One entry of the list returned by `client.release_urls` (source line 79):
a download address plus its optional upload timestamp.  `upload_time := none`
models a falsy value (absent or `None`), which is what the truthiness test on
source line 85 checks. -/
structure UrlEntry where
  url : String
  upload_time : Option Int
  deriving DecidableEq, Repr

/-- Default entry used to express `urls[0]` / `urls[1]`; the source only
indexes under a length guard, so the default is never observed. -/
def dUrl : UrlEntry := { url := "", upload_time := none }

/-- The fields of `client.release_data` (source line 84) that `main` reads. -/
structure ReleaseData where
  release_url : String
  author : String
  package_url : String
  summary : String
  deriving DecidableEq, Repr

/-- The XML-RPC index client: the three queries `main` performs per package,
as pure functions (source lines 77, 79, 84).  The dropped second argument of
`package_releases(package, True)` merely asks for hidden releases. -/
structure IndexClient where
  package_releases : String → List String
  release_urls : String → String → List UrlEntry
  release_data : String → String → ReleaseData

/-- The per-package record dictionary `packages[package]` (source lines
82-100), fields in assignment order.  `days_ago`/`upload_time` stay `none`
when the first URL entry has no upload timestamp (source line 85); the other
fields are always assigned.  The source stores `upload_time` as
`strftime("%Y-%m-%d %H:%M:%S")` of the parsed instant; we keep the instant,
the fixed reformatting being an injective external codec. -/
structure PackageRecord where
  version : String
  days_ago : Option Int
  upload_time : Option Int
  release_url : String
  author : String
  url : String
  package_url : String
  filename : String
  summary : String
  deriving DecidableEq, Repr

/-- The RSS item built on source lines 105-112.  `pubDate` is the record's
`upload_time` value (source line 111). -/
structure RSSItem where
  title : String
  author : String
  link : String
  guid : String
  description : String
  pubDate : Int
  deriving DecidableEq, Repr

/-! ## The per-package processing (body of the `for` loop, lines 74-113) -/

/-- Python `str.endswith`: whether the characters of `suffix` are a suffix of the
characters of `s`. -/
def pyEndsWith (s suffix : String) : Bool := List.isSuffixOf suffix.data s.data

/-- Python `os.path.basename`: the part of the string after the last `/`
(`p[p.rfind("/") + 1:]`), computed by restarting the accumulator at each
slash. -/
def pyBasename (s : String) : String :=
  String.mk (s.data.foldl (fun acc c => if c = '/' then [] else acc ++ [c]) [])

/-- The guid computed on source lines 102-103 and 109:
the MD5 hex digest of `package ++ "-" ++ version`. -/
def guidOf (package version : String) : String := md5_hex (package ++ "-" ++ version)

/-- Source lines 77-100: query the index and build the record dictionary for
one package.  Returns `none` when the package is skipped (empty release list,
line 78, or empty URL list, lines 80-81). -/
def buildRecord (client : IndexClient) (now : Int) (package : String) :
    Option PackageRecord :=
  let releases := client.package_releases package
  if 0 < releases.length then
    let version := releases.headD ""
    let urls := client.release_urls package version
    if urls.length = 0 then none
    else
      let data := client.release_data package version
      let u0 := urls.headD dUrl
      let tu : Option Int × Option Int :=
        match u0.upload_time with
        | some up => (some ((now - up).fdiv 86400), some up)
        | none => (none, none)
      let url :=
        if pyEndsWith u0.url ".whl" ∧ 1 < urls.length then (urls.getD 1 dUrl).url
        else u0.url
      some { version := version, days_ago := tu.1, upload_time := tu.2,
             release_url := data.release_url, author := data.author, url := url,
             package_url := data.package_url, filename := pyBasename url,
             summary := data.summary }
  else none

/-- Source lines 77-113: build the record and the RSS item for one package.
`Except.ok none` is the skip (`continue`) path; the construction of the item
reads `packages[package]["upload_time"]` unconditionally (source line 111),
which raises `KeyError` when the key was never assigned. -/
def processPackage (client : IndexClient) (now : Int) (package : String) :
    Except String (Option (PackageRecord × RSSItem)) :=
  match buildRecord client now package with
  | none => .ok none
  | some r =>
    match r.upload_time with
    | none => .error "KeyError: upload_time"
    | some up =>
      .ok (some (r, { title := package ++ " - " ++ r.version, author := r.author,
                      link := r.release_url, guid := guidOf package r.version,
                      description := r.summary, pubDate := up }))

/-- Membership test of the record dict (`package in packages`). -/
def hasKey (recs : List (String × PackageRecord)) (k : String) : Bool :=
  recs.any (fun e => e.1 == k)

/-- Python dict assignment `packages[package] = record`: replace the value if
the key is present, otherwise add the binding. -/
def upsert (recs : List (String × PackageRecord)) (k : String) (r : PackageRecord) :
    List (String × PackageRecord) :=
  if hasKey recs k then
    recs.map (fun e => if e.1 == k then (k, r) else e)
  else recs ++ [(k, r)]

/-- The `for package in configuration["packages"]` loop (lines 74-113),
threading the `packages` dict and the `rss.items` list and propagating the
first raised error. -/
def runPackages (client : IndexClient) (now : Int) :
    List String → List (String × PackageRecord) × List RSSItem →
    Except String (List (String × PackageRecord) × List RSSItem)
  | [], st => .ok st
  | p :: ps, (recs, items) =>
    match processPackage client now p with
    | .error e => .error e
    | .ok none => runPackages client now ps (recs, items)
    | .ok (some (r, it)) => runPackages client now ps (upsert recs p r, items ++ [it])

/-! ## Configuration and the whole run (`main`, lines 54-144) -/

/-- The `files` mapping of the configuration.  The three output paths are
described as optional (the source guards the writes with membership tests on
lines 125, 131, 138), hence `Option`. -/
structure FilesConfig where
  template : String
  yaml : Option String
  html : Option String
  feed : Option String

/-- The configuration document loaded on source line 58. -/
structure Configuration where
  title : String
  description : String
  baseurl : String
  basepath : String
  files : FilesConfig
  packages : List String

/-- The bindings passed to `template.render` on source lines 115-123. -/
structure TemplateBindings where
  packages : List (String × PackageRecord)
  timestamp : Int
  title : String
  description : String
  url_feed : String
  url_yaml : String
  url_html : String
  deriving DecidableEq, Repr

/-- The RSS channel object (source lines 66-71) together with its items. -/
structure RSSChannel where
  title : String
  link : String
  description : String
  lastBuildDate : Int
  items : List RSSItem
  deriving DecidableEq, Repr

/-- The data written into the three artifact files (lines 125-142): `none`
when the corresponding write is skipped.  The serializers (`yaml.dump`, the
template engine plus pretty-printer, `rss.to_xml`) are external deterministic
codecs applied to these values. -/
structure RunOutput where
  yamlOut : Option (List (String × PackageRecord))
  htmlOut : Option TemplateBindings
  feedOut : Option RSSChannel
  deriving DecidableEq, Repr

/-- The function `main` (source lines 54-144).  `nowUtc` is `datetime.utcnow()` and
`nowLocal` is `datetime.now()` (used only for the channel `lastBuildDate`,
line 70).  Lines 61-63 index `configuration["files"]` with `"feed"`,
`"yaml"`, `"html"` unconditionally, so a missing key raises `KeyError`
before any package is processed. -/
def main (cfg : Configuration) (client : IndexClient) (nowUtc nowLocal : Int) :
    Except String RunOutput :=
  match cfg.files.feed with
  | none => .error "KeyError: feed"
  | some feedPath =>
  match cfg.files.yaml with
  | none => .error "KeyError: yaml"
  | some yamlPath =>
  match cfg.files.html with
  | none => .error "KeyError: html"
  | some htmlPath =>
  let file_feed := pyBasename feedPath
  let file_yaml := pyBasename yamlPath
  let file_html := pyBasename htmlPath
  match runPackages client nowUtc cfg.packages ([], []) with
  | .error e => .error e
  | .ok (recs, items) =>
    let bindings : TemplateBindings :=
      { packages := recs, timestamp := nowUtc, title := cfg.title,
        description := cfg.description,
        url_feed := cfg.baseurl ++ "/" ++ file_feed,
        url_yaml := cfg.baseurl ++ "/" ++ file_yaml,
        url_html := cfg.baseurl ++ "/" ++ file_html }
    .ok { yamlOut := if cfg.files.yaml.isSome then some recs else none,
          htmlOut := if cfg.files.html.isSome then some bindings else none,
          feedOut :=
            if cfg.files.feed.isSome then
              some { title := cfg.title, link := cfg.baseurl ++ "/" ++ file_html,
                     description := cfg.description, lastBuildDate := nowLocal,
                     items := items }
            else none }

/-! ## Derived views used to state the properties -/

/-- The URL list the loop queries for a package: `release_urls` applied to the
first entry of the release list (source line 79). -/
def urlsOf (client : IndexClient) (package : String) : List UrlEntry :=
  client.release_urls package ((client.package_releases package).headD "")

/-- A record with its `days_ago` field erased (the one record field computed
from the current time). -/
def stripRec (r : PackageRecord) : PackageRecord := { r with days_ago := none }

/-- Erase `days_ago` in one entry of the record mapping. -/
def stripEntry (e : String × PackageRecord) : String × PackageRecord :=
  (e.1, stripRec e.2)

/-- Erase `days_ago` throughout the record mapping. -/
def stripAll (recs : List (String × PackageRecord)) : List (String × PackageRecord) :=
  recs.map stripEntry

/-- The channel data without its `lastBuildDate` (the one channel field
computed from the current time). -/
def chanStable (ch : RSSChannel) : String × String × String × List RSSItem :=
  (ch.title, ch.link, ch.description, ch.items)

/-- The time-independent part of the written YAML and feed artifacts. -/
def stableOf (o : RunOutput) :
    Option (List (String × PackageRecord)) ×
      Option (String × String × String × List RSSItem) :=
  (o.yamlOut.map stripAll, o.feedOut.map chanStable)

/-- The feed item a package contributes, if any. -/
def itemOf (client : IndexClient) (now : Int) (p : String) : Option RSSItem :=
  match processPackage client now p with
  | .ok (some (_, it)) => some it
  | _ => none

/-- Whether a run result is a successful completion. -/
def isOkB {ε α : Type} (res : Except ε α) : Bool :=
  match res with
  | .ok _ => true
  | _ => false

/-- The feed-item list of a completed loop, if it completed. -/
def itemsOfRes (res : Except String (List (String × PackageRecord) × List RSSItem)) :
    Option (List RSSItem) :=
  match res with
  | .ok (_, its) => some its
  | _ => none

/-- The number of records of a completed loop, if it completed. -/
def recsLenOf (res : Except String (List (String × PackageRecord) × List RSSItem)) :
    Option Nat :=
  match res with
  | .ok (recs, _) => some recs.length
  | _ => none

/-- The number of feed items of a completed loop, if it completed. -/
def itemsLenOf (res : Except String (List (String × PackageRecord) × List RSSItem)) :
    Option Nat :=
  match res with
  | .ok (_, its) => some its.length
  | _ => none

/-- The guid of the produced feed item, if one was produced. -/
def guidResult (res : Except String (Option (PackageRecord × RSSItem))) : Option String :=
  match res with
  | .ok (some (_, it)) => some it.guid
  | _ => none

/-- The digest viewed as a point of the finite type `Fin 16 → Fin 256`. -/
def digestVec (s : String) : Fin 16 → Fin 256 :=
  fun i => ⟨(md5Digest s).getD i 0 % 256, Nat.mod_lt _ (by norm_num)⟩

/-! ## Concrete index responses and configurations for the witnesses -/

/-- Index knowing one package `alpha` at version `2.0.0` whose first download
URL is a wheel file; both URL entries carry an upload timestamp. -/
def cW : IndexClient :=
  { package_releases := fun p => if p = "alpha" then ["2.0.0"] else [],
    release_urls := fun p v =>
      if p = "alpha" ∧ v = "2.0.0" then
        [{ url := "http://x/alpha-2.0.0.whl", upload_time := some 100 },
         { url := "http://x/alpha-2.0.0.tar.gz", upload_time := some 100 }]
      else [],
    release_data := fun _ _ =>
      { release_url := "http://r", author := "ann", package_url := "http://p",
        summary := "sum" } }

/-- The record `buildRecord cW 0 "alpha"` produces. -/
def rW : PackageRecord :=
  { version := "2.0.0", days_ago := some (-1), upload_time := some 100,
    release_url := "http://r", author := "ann",
    url := "http://x/alpha-2.0.0.tar.gz", package_url := "http://p",
    filename := "alpha-2.0.0.tar.gz", summary := "sum" }

/-- The record `buildRecord cW 200000 "alpha"` produces. -/
def rW2 : PackageRecord := { rW with days_ago := some 2 }

/-- Index where `alpha`'s only URL entry carries no upload timestamp. -/
def cC2 : IndexClient :=
  { package_releases := fun p => if p = "alpha" then ["2.0.0"] else [],
    release_urls := fun p v =>
      if p = "alpha" ∧ v = "2.0.0" then
        [{ url := "http://x/alpha-2.0.0.tar.gz", upload_time := none }]
      else [],
    release_data := fun _ _ =>
      { release_url := "http://r", author := "ann", package_url := "http://p",
        summary := "sum" } }

/-- Index where `alpha`'s only URL entry was uploaded at instant 3600
(one hour after the epoch of the model). -/
def cC6 : IndexClient :=
  { package_releases := fun p => if p = "alpha" then ["2.0.0"] else [],
    release_urls := fun p v =>
      if p = "alpha" ∧ v = "2.0.0" then
        [{ url := "http://x/alpha-2.0.0.tar.gz", upload_time := some 3600 }]
      else [],
    release_data := fun _ _ =>
      { release_url := "http://r", author := "ann", package_url := "http://p",
        summary := "sum" } }

/-- Index knowing two well-formed packages `alpha` and `beta`. -/
def cN : IndexClient :=
  { package_releases := fun p =>
      if p = "alpha" then ["2.0.0"] else if p = "beta" then ["1.0"] else [],
    release_urls := fun p v =>
      if p = "alpha" ∧ v = "2.0.0" then
        [{ url := "http://x/alpha-2.0.0.tar.gz", upload_time := some 100 }]
      else if p = "beta" ∧ v = "1.0" then
        [{ url := "http://x/beta-1.0.tar.gz", upload_time := some 200 }]
      else [],
    release_data := fun _ _ =>
      { release_url := "http://r", author := "ann", package_url := "http://p",
        summary := "sum" } }

/-- A `files` section with all three output paths configured. -/
def filesFull : FilesConfig :=
  { template := "tpl.html", yaml := some "v.yaml", html := some "index.html",
    feed := some "feed.xml" }

/-- A full configuration listing only `alpha`. -/
def cfgFull : Configuration :=
  { title := "t", description := "d", baseurl := "http://b", basepath := "/srv",
    files := filesFull, packages := ["alpha"] }

/-- Like `cfgFull` but with the `yaml` output path removed. -/
def cfgNoYaml : Configuration :=
  { cfgFull with files := { filesFull with yaml := none } }

/-- Like `cfgFull` but with the `html` output path removed. -/
def cfgNoHtml : Configuration :=
  { cfgFull with files := { filesFull with html := none } }

/-- Like `cfgFull` but with the `feed` output path removed. -/
def cfgNoFeed : Configuration :=
  { cfgFull with files := { filesFull with feed := none } }

/-! ## Helper lemmas -/

/-- Cross-check of the embedded MD5 against `hashlib.md5("a-1.0").hexdigest()`. -/
theorem md5_hex_check1 : md5_hex "a-1.0" = "1adb15997b5695bcdb257230033323d2" := by decide

/-- Cross-check of the embedded MD5 against
`hashlib.md5("alpha-2.0.0").hexdigest()`. -/
theorem md5_hex_check2 : md5_hex "alpha-2.0.0" = "fc5323206e608fa9603709623d1536e3" := by
  decide

/-- A package with an empty release list or an empty URL list takes the skip
path: no record, no item, no error (source lines 78 and 80-81). -/
theorem processPackage_skip (client : IndexClient) (now : Int) (p : String)
    (h : client.package_releases p = [] ∨ urlsOf client p = []) :
    processPackage client now p = .ok none := by
  have hb : buildRecord client now p = none := by
    simp only [buildRecord]
    rcases h with h | h
    · simp [h]
    · simp only [urlsOf, List.headD_eq_head?_getD] at h
      split
      · simp [h]
      · rfl
  simp [processPackage, hb]

/-! ## Claim theorems -/

/-- C1: a package whose latest-releases query returns an empty list, or whose
release-URLs query for the latest release returns an empty list, contributes
no record and no feed item, and the rest of the run is exactly the run with
that package removed from the package list. -/
theorem skipped_package_invisible (client : IndexClient) (now : Int)
    (ps qs : List String) (p : String)
    (st : List (String × PackageRecord) × List RSSItem)
    (h : client.package_releases p = [] ∨ urlsOf client p = []) :
    processPackage client now p = .ok none ∧
      runPackages client now (ps ++ p :: qs) st = runPackages client now (ps ++ qs) st := by
  have hskip := processPackage_skip client now p h
  refine ⟨hskip, ?_⟩
  induction ps generalizing st with
  | nil =>
    obtain ⟨recs, items⟩ := st
    simp [runPackages, hskip]
  | cons a as ih =>
    obtain ⟨recs, items⟩ := st
    simp only [List.cons_append, runPackages]
    cases hpa : processPackage client now a with
    | error e => rfl
    | ok o =>
      cases o with
      | none => exact ih _
      | some ri => exact ih _

/-- C1 witness: with the index `cW`, package `beta` has no releases; the run
over `["alpha", "beta"]` equals the run over `["alpha"]`. -/
theorem skipped_package_invisible_witness :
    (cW.package_releases "beta" = [] ∨ urlsOf cW "beta" = []) ∧
      (processPackage cW 0 "beta" = .ok none ∧
        runPackages cW 0 (["alpha"] ++ "beta" :: []) ([], []) =
          runPackages cW 0 (["alpha"] ++ []) ([], [])) :=
  ⟨Or.inl (by decide),
   skipped_package_invisible cW 0 ["alpha"] [] "beta" ([], []) (Or.inl (by decide))⟩

/-- C2: when the first URL entry carries no upload timestamp, the record
leaves `upload_time` and `days_ago` unset, but the script then reads the
missing `upload_time` key while building the RSS item (source line 111) and
the package raises `KeyError` instead of completing; with all three output
paths configured the whole run aborts. -/
theorem missing_upload_time_fails_run :
    (buildRecord cC2 0 "alpha").map (fun r => (r.upload_time, r.days_ago)) =
        some (none, none) ∧
      processPackage cC2 0 "alpha" = .error "KeyError: upload_time" ∧
      main cfgFull cC2 0 0 = .error "KeyError: upload_time" := by
  refine ⟨by decide, by rfl, by rfl⟩

/-- C3: the three per-artifact output paths are not optional: `main` reads
all three keys of the `files` mapping up front (source lines 61-63), so a
configuration lacking any one of them makes the run abort with `KeyError`
before any package is processed, instead of completing without that
artifact. -/
theorem absent_output_path_fails_run :
    main cfgNoFeed cC2 0 0 = .error "KeyError: feed" ∧
      main cfgNoYaml cC2 0 0 = .error "KeyError: yaml" ∧
      main cfgNoHtml cC2 0 0 = .error "KeyError: html" := by
  refine ⟨by rfl, by rfl, by rfl⟩

/-- C4: in every produced record, if the first URL address ends in `.whl`
and a second URL entry exists, `url` is the second entry's address; in
every other case it is the first entry's address. -/
theorem url_wheel_substitution (client : IndexClient) (now : Int) (p : String)
    (r : PackageRecord) (h : buildRecord client now p = some r) :
    (pyEndsWith ((urlsOf client p).headD dUrl).url ".whl" = true ∧
        2 ≤ (urlsOf client p).length →
      r.url = ((urlsOf client p).getD 1 dUrl).url) ∧
    (¬(pyEndsWith ((urlsOf client p).headD dUrl).url ".whl" = true ∧
        2 ≤ (urlsOf client p).length) →
      r.url = ((urlsOf client p).headD dUrl).url) := by
  simp only [buildRecord] at h
  split at h
  · split at h
    · simp at h
    · injection h with h
      subst h
      simp only [urlsOf]
      constructor
      · intro hc
        split
        · rfl
        · rename_i hcond
          exact absurd hc hcond
      · intro hc
        split
        · rename_i hcond
          exact absurd hcond hc
        · rfl
  · simp at h

/-- C4 witness: with the index `cW`, whose first URL for `alpha` is a wheel
file with a second URL present, the produced record's `url` is the second
address. -/
theorem url_wheel_substitution_witness :
    buildRecord cW 0 "alpha" = some rW ∧
      ((pyEndsWith ((urlsOf cW "alpha").headD dUrl).url ".whl" = true ∧
          2 ≤ (urlsOf cW "alpha").length →
        rW.url = ((urlsOf cW "alpha").getD 1 dUrl).url) ∧
      (¬(pyEndsWith ((urlsOf cW "alpha").headD dUrl).url ".whl" = true ∧
          2 ≤ (urlsOf cW "alpha").length) →
        rW.url = ((urlsOf cW "alpha").headD dUrl).url)) :=
  ⟨by decide, url_wheel_substitution cW 0 "alpha" rW (by decide)⟩

/-- C5: in every produced record, `filename` is the final path segment of
the record's `url` field, i.e. of the chosen URL after any wheel
substitution (source lines 98-99 run after lines 94-96). -/
theorem filename_last_segment (client : IndexClient) (now : Int) (p : String)
    (r : PackageRecord) (h : buildRecord client now p = some r) :
    r.filename = pyBasename r.url := by
  simp only [buildRecord] at h
  split at h
  · split at h
    · simp at h
    · injection h with h
      subst h
      rfl
  · simp at h

/-- C5 witness: the wheel-substituted URL of `alpha` yields filename
`alpha-2.0.0.tar.gz`. -/
theorem filename_last_segment_witness :
    buildRecord cW 0 "alpha" = some rW ∧ rW.filename = pyBasename rW.url :=
  ⟨by decide, filename_last_segment cW 0 "alpha" rW (by decide)⟩

/-- C6 (amended): in every produced record with an upload time, `days_ago`
is the floor whole-day difference `(now - uploadTime).fdiv 86400`
(Python `timedelta.days` floors), and it is non-negative whenever the upload
time is not later than the current time.  For a future upload time it is
negative, see the counterexample. -/
theorem days_ago_floor (client : IndexClient) (now : Int) (p : String)
    (r : PackageRecord) (h : buildRecord client now p = some r)
    (up : Int) (hu : r.upload_time = some up) :
    r.days_ago = some ((now - up).fdiv 86400) ∧
      (up ≤ now → ∀ d : Int, r.days_ago = some d → 0 ≤ d) := by
  simp only [buildRecord] at h
  split at h
  · split at h
    · simp at h
    · injection h with h
      subst h
      simp only at hu
      cases hup : ((client.release_urls p ((client.package_releases p).headD "")).headD dUrl).upload_time with
      | none => rw [hup] at hu; simp at hu
      | some up' =>
        rw [hup] at hu
        simp only [Option.some_inj] at hu
        subst hu
        refine ⟨by simp [hup], ?_⟩
        intro hle d hd
        simp only [hup, Option.some_inj] at hd
        subst hd
        exact Int.fdiv_nonneg (by omega) (by norm_num)
  · simp at h

/-- C6 witness: with `now = 200000` and upload time 100, `days_ago`
is the non-negative floor day count 2. -/
theorem days_ago_floor_witness :
    buildRecord cW 200000 "alpha" = some rW2 ∧ rW2.upload_time = some 100 ∧
      (rW2.days_ago = some (((200000 : Int) - 100).fdiv 86400) ∧
        ((100 : Int) ≤ 200000 → ∀ d : Int, rW2.days_ago = some d → 0 ≤ d)) :=
  ⟨by decide, by decide, days_ago_floor cW 200000 "alpha" rW2 (by decide) 100 (by decide)⟩

/-- C6 counterexample: an upload time one hour in the future of the current
time yields `days_ago = -1`, which is negative (and differs from the
truncated whole-day difference 0), refuting the claim for a parsed upload
time later than the current time. -/
theorem days_ago_negative_counterexample :
    (buildRecord cC6 0 "alpha").map (fun r => r.days_ago) = some (some (-1)) ∧
      ¬(0 : Int) ≤ -1 := by
  refine ⟨by decide, by decide⟩

/-- C10: in every record `buildRecord` produces, `upload_time` is present
iff `days_ago` is present, and both are present exactly when the first URL
entry of the latest release carries a (truthy) upload timestamp. -/
theorem upload_time_days_ago_iff (client : IndexClient) (now : Int) (p : String)
    (r : PackageRecord) (h : buildRecord client now p = some r) :
    (r.upload_time.isSome = r.days_ago.isSome) ∧
      (r.upload_time.isSome = ((urlsOf client p).headD dUrl).upload_time.isSome) := by
  simp only [buildRecord] at h
  split at h
  · split at h
    · simp at h
    · injection h with h
      subst h
      simp only [urlsOf]
      cases hup : ((client.release_urls p ((client.package_releases p).headD "")).headD dUrl).upload_time with
      | none => simp [hup]
      | some up' => simp [hup]
  · simp at h

/-- C10 witness: for `alpha` under `cW` both fields are present, matching
the present first-URL timestamp. -/
theorem upload_time_days_ago_iff_witness :
    buildRecord cW 0 "alpha" = some rW ∧
      ((rW.upload_time.isSome = rW.days_ago.isSome) ∧
        (rW.upload_time.isSome = ((urlsOf cW "alpha").headD dUrl).upload_time.isSome)) :=
  ⟨by decide, upload_time_days_ago_iff cW 0 "alpha" rW (by decide)⟩

/-! ## The guid (C7): digest facts and pigeonhole -/

/-- The list `leBytes k n` has exactly `k` bytes. -/
theorem leBytes_length (k : Nat) : ∀ n, (leBytes k n).length = k := by
  induction k with
  | zero => intro n; rfl
  | succ k ih => intro n; simp [leBytes, ih]

/-- Every byte `leBytes` produces is below 256. -/
theorem leBytes_lt (k : Nat) : ∀ n x, x ∈ leBytes k n → x < 256 := by
  induction k with
  | zero => intro n x hx; simp [leBytes] at hx
  | succ k ih =>
    intro n x hx
    simp only [leBytes, List.mem_cons] at hx
    rcases hx with hx | hx
    · subst hx; exact Nat.mod_lt _ (by norm_num)
    · exact ih _ x hx

/-- An MD5 digest is 16 bytes long. -/
theorem md5Digest_length (s : String) : (md5Digest s).length = 16 := by
  simp [md5Digest, leBytes_length]

/-- Every byte of an MD5 digest is below 256. -/
theorem md5Digest_lt (s : String) : ∀ x ∈ md5Digest s, x < 256 := by
  intro x hx
  simp only [md5Digest, List.mem_append] at hx
  rcases hx with ((hx | hx) | hx) | hx <;> exact leBytes_lt _ _ x hx

/-- Equal digest vectors come from equal digests. -/
theorem md5Digest_eq_of_vec_eq (s1 s2 : String) (h : digestVec s1 = digestVec s2) :
    md5Digest s1 = md5Digest s2 := by
  apply List.ext_getElem (by rw [md5Digest_length, md5Digest_length])
  intro i h1 h2
  have hi : i < 16 := by rw [md5Digest_length] at h1; exact h1
  have hv := congrArg Fin.val (congrFun h ⟨i, hi⟩)
  simp only [digestVec] at hv
  rw [List.getD_eq_getElem _ _ h1, List.getD_eq_getElem _ _ h2] at hv
  rw [Nat.mod_eq_of_lt (md5Digest_lt s1 _ (List.getElem_mem h1)),
      Nat.mod_eq_of_lt (md5Digest_lt s2 _ (List.getElem_mem h2))] at hv
  exact hv

/-- C7 counterexample: the guid is not injective in the version.  The digest
ranges over the finite type `Fin 16 → Fin 256` while versions range over the
infinite type of strings, so by the pigeonhole principle some two distinct
versions of the same package share a guid; hence "changing the version
changes the digest" is false. -/
theorem guid_not_version_injective :
    ¬ ∀ p v1 v2 : String, v1 ≠ v2 → guidOf p v1 ≠ guidOf p v2 := by
  intro h
  obtain ⟨v1, v2, hne, heq⟩ :=
    Finite.exists_ne_map_eq_of_infinite (fun v : String => digestVec ("a" ++ "-" ++ v))
  refine h "a" v1 v2 hne ?_
  unfold guidOf md5_hex
  rw [md5Digest_eq_of_vec_eq _ _ heq]

/-- The version recorded by `buildRecord` is the head of the release list. -/
theorem buildRecord_version (client : IndexClient) (now : Int) (p : String)
    (r : PackageRecord) (h : buildRecord client now p = some r) :
    r.version = (client.package_releases p).headD "" := by
  simp only [buildRecord] at h
  split at h
  · split at h
    · simp at h
    · injection h with h
      subst h
      rfl
  · simp at h

/-- The `upload_time` field of a produced record is the first URL entry's
timestamp. -/
theorem buildRecord_upload_time (client : IndexClient) (now : Int) (p : String)
    (r : PackageRecord) (h : buildRecord client now p = some r) :
    r.upload_time = ((urlsOf client p).headD dUrl).upload_time := by
  simp only [buildRecord] at h
  split at h
  · split at h
    · simp at h
    · injection h with h
      subst h
      simp only [urlsOf]
      cases hup : ((client.release_urls p ((client.package_releases p).headD "")).headD dUrl).upload_time with
      | none => simp [hup]
      | some up => simp [hup]
  · simp at h

/-- A package with a non-empty release list and a non-empty URL list yields a
record. -/
theorem buildRecord_isSome (client : IndexClient) (now : Int) (p : String)
    (h1 : client.package_releases p ≠ []) (h2 : urlsOf client p ≠ []) :
    (buildRecord client now p).isSome = true := by
  simp only [urlsOf] at h2
  simp only [buildRecord]
  rw [if_pos (List.length_pos.mpr h1)]
  rw [if_neg (fun hh => h2 (List.length_eq_zero.mp hh))]
  rfl

/-- C7 (amended): the guid of the produced feed item is `guidOf` applied to
the package name and the latest version only — a fixed function of the pair
`(package, version)`, independent of the current time and of every other
index datum, so recomputing it for the same pair always yields the same hex
digest.  (Changing the version does not always change the digest: see the
pigeonhole counterexample.) -/
theorem guid_deterministic (client : IndexClient) (now : Int) (p : String)
    (h1 : client.package_releases p ≠ []) (h2 : urlsOf client p ≠ [])
    (h3 : ((urlsOf client p).headD dUrl).upload_time.isSome = true) :
    guidResult (processPackage client now p) =
      some (guidOf p ((client.package_releases p).headD "")) := by
  obtain ⟨r, hb⟩ := Option.isSome_iff_exists.mp (buildRecord_isSome client now p h1 h2)
  obtain ⟨up, hup⟩ := Option.isSome_iff_exists.mp h3
  have hru : r.upload_time = some up :=
    (buildRecord_upload_time client now p r hb).trans hup
  have hv := buildRecord_version client now p r hb
  simp [processPackage, hb, hru, guidResult, hv]

/-- C7 witness: under `cW` the guid of `alpha`'s item is `guidOf` of the
package and its latest version. -/
theorem guid_deterministic_witness :
    cW.package_releases "alpha" ≠ [] ∧ urlsOf cW "alpha" ≠ [] ∧
      ((urlsOf cW "alpha").headD dUrl).upload_time.isSome = true ∧
      guidResult (processPackage cW 0 "alpha") =
        some (guidOf "alpha" ((cW.package_releases "alpha").headD "")) :=
  ⟨by decide, by decide, by decide,
   guid_deterministic cW 0 "alpha" (by decide) (by decide) (by decide)⟩

/-! ## Idempotence up to time-derived fields (C8) -/

/-- Record construction does not depend on the current time except through
`days_ago`. -/
theorem buildRecord_time_indep (client : IndexClient) (p : String) (u1 u2 : Int) :
    (buildRecord client u1 p).map stripRec = (buildRecord client u2 p).map stripRec := by
  simp only [buildRecord]
  split
  · split
    · rfl
    · cases hup : ((client.release_urls p ((client.package_releases p).headD "")).headD dUrl).upload_time with
      | none => simp [stripRec]
      | some up => simp [stripRec]
  · rfl

/-- Erasing `days_ago` keeps the `version` field. -/
theorem stripRec_version (r : PackageRecord) : (stripRec r).version = r.version := rfl

/-- Erasing `days_ago` keeps the `upload_time` field. -/
theorem stripRec_upload_time (r : PackageRecord) :
    (stripRec r).upload_time = r.upload_time := rfl

/-- Erasing `days_ago` keeps the `author` field. -/
theorem stripRec_author (r : PackageRecord) : (stripRec r).author = r.author := rfl

/-- Erasing `days_ago` keeps the `release_url` field. -/
theorem stripRec_release_url (r : PackageRecord) :
    (stripRec r).release_url = r.release_url := rfl

/-- Erasing `days_ago` keeps the `summary` field. -/
theorem stripRec_summary (r : PackageRecord) : (stripRec r).summary = r.summary := rfl

/-- Per-package processing does not depend on the current time except through
the record's `days_ago` field: skip/error behaviour and the feed item are
identical. -/
theorem processPackage_time_indep (client : IndexClient) (p : String) (u1 u2 : Int) :
    (processPackage client u1 p).map
        (Option.map (fun x : PackageRecord × RSSItem => (stripRec x.1, x.2))) =
      (processPackage client u2 p).map
        (Option.map (fun x : PackageRecord × RSSItem => (stripRec x.1, x.2))) := by
  have hb := buildRecord_time_indep client p u1 u2
  unfold processPackage
  cases h1 : buildRecord client u1 p with
  | none =>
    cases h2 : buildRecord client u2 p with
    | none => rfl
    | some r2 => rw [h1, h2] at hb; simp at hb
  | some r1 =>
    cases h2 : buildRecord client u2 p with
    | none => rw [h1, h2] at hb; simp at hb
    | some r2 =>
      rw [h1, h2] at hb
      simp only [Option.map_some'] at hb
      injection hb with hb
      have hvt : r1.upload_time = r2.upload_time := by
        rw [← stripRec_upload_time r1, hb]; rfl
      have hv : r1.version = r2.version := by
        rw [← stripRec_version r1, hb]; rfl
      have ha : r1.author = r2.author := by
        rw [← stripRec_author r1, hb]; rfl
      have hl : r1.release_url = r2.release_url := by
        rw [← stripRec_release_url r1, hb]; rfl
      have hs : r1.summary = r2.summary := by
        rw [← stripRec_summary r1, hb]; rfl
      dsimp only
      cases hu1 : r1.upload_time with
      | none =>
        have hu2 : r2.upload_time = none := hvt.symm.trans hu1
        rw [hu2]
      | some up =>
        have hu2 : r2.upload_time = some up := hvt.symm.trans hu1
        rw [hu2]
        simp only [Except.map, Option.map_some']
        rw [hv, ha, hl, hs, hb]

/-- Erasing `days_ago` keeps the key of a mapping entry. -/
theorem stripEntry_fst (e : String × PackageRecord) : (stripEntry e).1 = e.1 := rfl

/-- The map `stripAll` preserves the key test. -/
theorem stripAll_hasKey (l1 : List (String × PackageRecord)) :
    ∀ l2, stripAll l1 = stripAll l2 → ∀ k, hasKey l1 k = hasKey l2 k := by
  induction l1 with
  | nil =>
    intro l2 h k
    cases l2 with
    | nil => rfl
    | cons f fs => simp [stripAll] at h
  | cons e es ih =>
    intro l2 h k
    cases l2 with
    | nil => simp [stripAll] at h
    | cons f fs =>
      simp only [stripAll, List.map_cons, List.cons.injEq] at h
      obtain ⟨h1, h2⟩ := h
      have hk : e.1 = f.1 := by rw [← stripEntry_fst e, h1]; rfl
      simp only [hasKey, List.any_cons]
      rw [hk]
      have := ih fs h2 k
      simp only [hasKey] at this
      rw [this]

/-- The map `stripAll` commutes with the replace branch of `upsert`. -/
theorem stripAll_replace (k : String) (r1 r2 : PackageRecord)
    (hr : stripRec r1 = stripRec r2) (l1 : List (String × PackageRecord)) :
    ∀ l2, stripAll l1 = stripAll l2 →
      stripAll (l1.map (fun e => if e.1 == k then (k, r1) else e)) =
        stripAll (l2.map (fun e => if e.1 == k then (k, r2) else e)) := by
  induction l1 with
  | nil =>
    intro l2 h
    cases l2 with
    | nil => rfl
    | cons f fs => simp [stripAll] at h
  | cons e es ih =>
    intro l2 h
    cases l2 with
    | nil => simp [stripAll] at h
    | cons f fs =>
      simp only [stripAll, List.map_cons, List.cons.injEq] at h ⊢
      obtain ⟨h1, h2⟩ := h
      have hk : e.1 = f.1 := by rw [← stripEntry_fst e, h1]; rfl
      refine ⟨?_, ih fs h2⟩
      rw [hk]
      by_cases hfk : (f.1 == k) = true
      · rw [if_pos hfk, if_pos hfk]
        simp [stripEntry, hr]
      · rw [if_neg hfk, if_neg hfk]
        exact h1

/-- The map `stripAll` commutes with dict assignment. -/
theorem stripAll_upsert (l1 l2 : List (String × PackageRecord))
    (h : stripAll l1 = stripAll l2) (r1 r2 : PackageRecord)
    (hr : stripRec r1 = stripRec r2) (k : String) :
    stripAll (upsert l1 k r1) = stripAll (upsert l2 k r2) := by
  unfold upsert
  rw [stripAll_hasKey l1 l2 h k]
  by_cases hk : hasKey l2 k = true
  · rw [if_pos hk, if_pos hk]
    exact stripAll_replace k r1 r2 hr l1 l2 h
  · rw [if_neg hk, if_neg hk]
    simp only [stripAll, List.map_append, List.map_cons, List.map_nil]
    simp only [stripAll] at h
    rw [h]
    simp [stripEntry, hr]

/-- The package loop does not depend on the current time except through the
records' `days_ago` fields: errors, skips and the feed items coincide. -/
theorem runPackages_time_indep (client : IndexClient) (u1 u2 : Int) :
    ∀ (pkgs : List String) (l1 l2 : List (String × PackageRecord))
      (its : List RSSItem), stripAll l1 = stripAll l2 →
      (runPackages client u1 pkgs (l1, its)).map (fun s => (stripAll s.1, s.2)) =
        (runPackages client u2 pkgs (l2, its)).map (fun s => (stripAll s.1, s.2)) := by
  intro pkgs
  induction pkgs with
  | nil =>
    intro l1 l2 its h
    simp [runPackages, Except.map, h]
  | cons p ps ih =>
    intro l1 l2 its h
    have hp := processPackage_time_indep client p u1 u2
    simp only [runPackages]
    cases h1 : processPackage client u1 p with
    | error e =>
      cases h2 : processPackage client u2 p with
      | error e2 =>
        rw [h1, h2] at hp
        simp only [Except.map] at hp
        injection hp with hp
        rw [hp]
      | ok o2 =>
        rw [h1, h2] at hp
        simp [Except.map] at hp
    | ok o1 =>
      cases h2 : processPackage client u2 p with
      | error e2 =>
        rw [h1, h2] at hp
        simp [Except.map] at hp
      | ok o2 =>
        rw [h1, h2] at hp
        simp only [Except.map] at hp
        injection hp with hp
        cases o1 with
        | none =>
          cases o2 with
          | none => exact ih l1 l2 its h
          | some x => simp at hp
        | some x1 =>
          cases o2 with
          | none => simp at hp
          | some x2 =>
            obtain ⟨r1, it1⟩ := x1
            obtain ⟨r2, it2⟩ := x2
            simp only [Option.map_some'] at hp
            injection hp with hp
            have hrr : stripRec r1 = stripRec r2 := congrArg Prod.fst hp
            have hit : it1 = it2 := congrArg Prod.snd hp
            subst hit
            exact ih (upsert l1 p r1) (upsert l2 p r2) (its ++ [it1])
              (stripAll_upsert l1 l2 h r1 r2 hrr p)

/-- C8: two runs with the same configuration and the same index responses,
at different current times, produce the same YAML data except for the
`days_ago` fields and the same feed except for the channel build date: the
stable projections of the outcomes (records with `days_ago` erased; channel
title/link/description and the item list) are equal — and so are the
serialized artifacts, the serializers being deterministic codecs. -/
theorem yaml_feed_time_indep (cfg : Configuration) (client : IndexClient)
    (u1 t1 u2 t2 : Int) :
    (main cfg client u1 t1).map stableOf = (main cfg client u2 t2).map stableOf := by
  unfold main
  cases cfg.files.feed with
  | none => rfl
  | some feedPath =>
  cases cfg.files.yaml with
  | none => rfl
  | some yamlPath =>
  cases cfg.files.html with
  | none => rfl
  | some htmlPath =>
  have hrun := runPackages_time_indep client u1 u2 cfg.packages [] [] [] rfl
  cases h1 : runPackages client u1 cfg.packages ([], []) with
  | error e =>
    cases h2 : runPackages client u2 cfg.packages ([], []) with
    | error e2 =>
      rw [h1, h2] at hrun
      simp only [Except.map] at hrun
      injection hrun with hrun
      rw [hrun]
    | ok s2 =>
      rw [h1, h2] at hrun
      simp [Except.map] at hrun
  | ok s1 =>
    cases h2 : runPackages client u2 cfg.packages ([], []) with
    | error e2 =>
      rw [h1, h2] at hrun
      simp [Except.map] at hrun
    | ok s2 =>
      rw [h1, h2] at hrun
      simp only [Except.map] at hrun
      injection hrun with hrun
      obtain ⟨recs1, its1⟩ := s1
      obtain ⟨recs2, its2⟩ := s2
      have hrecs : stripAll recs1 = stripAll recs2 := congrArg Prod.fst hrun
      have hits : its1 = its2 := congrArg Prod.snd hrun
      subst hits
      simp only [Except.map, stableOf, chanStable, Option.isSome_some, if_true,
        Option.map_some', Except.ok.injEq, Prod.mk.injEq]
      exact ⟨by rw [hrecs], trivial⟩

/-! ## Feed items: one per record-producing loop iteration (C9) -/

/-- The items of a completed loop are the initial items followed by the
items of the processed packages, in package order. -/
theorem runPackages_items (client : IndexClient) (now : Int) :
    ∀ (pkgs : List String) (recs0 : List (String × PackageRecord))
      (its0 : List RSSItem) (out : List (String × PackageRecord) × List RSSItem),
      runPackages client now pkgs (recs0, its0) = .ok out →
      out.2 = its0 ++ pkgs.filterMap (itemOf client now) := by
  intro pkgs
  induction pkgs with
  | nil =>
    intro recs0 its0 out h
    simp only [runPackages] at h
    injection h with h
    rw [← h]
    simp
  | cons p ps ih =>
    intro recs0 its0 out h
    simp only [runPackages] at h
    cases hp : processPackage client now p with
    | error e => rw [hp] at h; simp at h
    | ok o =>
      rw [hp] at h
      cases o with
      | none =>
        have := ih recs0 its0 out h
        rw [this]
        simp [itemOf, hp, List.filterMap_cons]
      | some x =>
        obtain ⟨r, it⟩ := x
        have := ih (upsert recs0 p r) (its0 ++ [it]) out h
        rw [this]
        simp [itemOf, hp, List.filterMap_cons]

/-- Assigning a fresh key appends one entry. -/
theorem upsert_length_fresh (recs : List (String × PackageRecord)) (k : String)
    (r : PackageRecord) (h : hasKey recs k = false) :
    (upsert recs k r).length = recs.length + 1 := by
  simp [upsert, h]

/-- After assigning a fresh key, the key test recognises exactly the old keys
and the new one. -/
theorem hasKey_upsert_fresh (recs : List (String × PackageRecord)) (k : String)
    (r : PackageRecord) (h : hasKey recs k = false) (q : String) :
    hasKey (upsert recs k r) q = (hasKey recs q || (k == q)) := by
  simp only [hasKey] at h
  simp [upsert, hasKey, h, List.any_append]

/-- Over a duplicate-free package list whose names are not yet keys, a
completed loop grows the record dict and the item list by the same amount. -/
theorem runPackages_count (client : IndexClient) (now : Int) :
    ∀ (pkgs : List String) (recs0 : List (String × PackageRecord))
      (its0 : List RSSItem) (out : List (String × PackageRecord) × List RSSItem),
      runPackages client now pkgs (recs0, its0) = .ok out → pkgs.Nodup →
      (∀ p ∈ pkgs, hasKey recs0 p = false) →
      out.1.length + its0.length = out.2.length + recs0.length := by
  intro pkgs
  induction pkgs with
  | nil =>
    intro recs0 its0 out h _ _
    simp only [runPackages] at h
    injection h with h
    rw [← h]
    dsimp only
    omega
  | cons p ps ih =>
    intro recs0 its0 out h hnd hfresh
    simp only [runPackages] at h
    cases hp : processPackage client now p with
    | error e => rw [hp] at h; simp at h
    | ok o =>
      rw [hp] at h
      cases o with
      | none =>
        exact ih recs0 its0 out h (List.Nodup.of_cons hnd)
          (fun q hq => hfresh q (List.mem_cons_of_mem _ hq))
      | some x =>
        obtain ⟨r, it⟩ := x
        have hfp : hasKey recs0 p = false := hfresh p (List.mem_cons_self _ _)
        have hrest : ∀ q ∈ ps, hasKey (upsert recs0 p r) q = false := by
          intro q hq
          rw [hasKey_upsert_fresh recs0 p r hfp q]
          have hq1 : hasKey recs0 q = false :=
            hfresh q (List.mem_cons_of_mem _ hq)
          have hpq : p ≠ q := fun hh => (List.nodup_cons.mp hnd).1 (hh ▸ hq)
          have hq2 : (p == q) = false := beq_eq_false_iff_ne.mpr hpq
          rw [hq1, hq2]
          rfl
        have := ih (upsert recs0 p r) (its0 ++ [it]) out h
          (List.Nodup.of_cons hnd) hrest
        rw [upsert_length_fresh recs0 p r hfp] at this
        simp only [List.length_append, List.length_cons, List.length_nil] at this ⊢
        omega

/-- C9 (amended): in a completed run the feed items are exactly the items of
the record-producing entries of the package list, in list order; and if the
package list has no duplicate names, there is exactly one item per produced
record.  (A duplicated name yields one record but one item per occurrence:
see the counterexample.) -/
theorem feed_items_in_order (client : IndexClient) (now : Int) (pkgs : List String)
    (h : isOkB (runPackages client now pkgs ([], [])) = true) :
    itemsOfRes (runPackages client now pkgs ([], [])) =
        some (pkgs.filterMap (itemOf client now)) ∧
      (pkgs.Nodup →
        recsLenOf (runPackages client now pkgs ([], [])) =
          itemsLenOf (runPackages client now pkgs ([], []))) := by
  cases hr : runPackages client now pkgs ([], []) with
  | error e => rw [hr] at h; simp [isOkB] at h
  | ok out =>
    obtain ⟨recs, its⟩ := out
    have hi := runPackages_items client now pkgs [] [] (recs, its) hr
    constructor
    · simp only [itemsOfRes]
      simp at hi
      rw [hi]
    · intro hnd
      have hc := runPackages_count client now pkgs [] [] (recs, its) hr hnd
        (by intro q hq; rfl)
      simp only [recsLenOf, itemsLenOf, Option.some_inj]
      simp only [List.length_nil] at hc
      omega

/-- C9 witness: the run over the duplicate-free list `["alpha", "beta"]`
under `cN` completes, its items are the record-producing entries' items in
order, and the record and item counts agree. -/
theorem feed_items_in_order_witness :
    isOkB (runPackages cN 0 ["alpha", "beta"] ([], [])) = true ∧
      (itemsOfRes (runPackages cN 0 ["alpha", "beta"] ([], [])) =
          some (["alpha", "beta"].filterMap (itemOf cN 0)) ∧
        (["alpha", "beta"].Nodup →
          recsLenOf (runPackages cN 0 ["alpha", "beta"] ([], [])) =
            itemsLenOf (runPackages cN 0 ["alpha", "beta"] ([], [])))) :=
  ⟨by decide, feed_items_in_order cN 0 ["alpha", "beta"] (by decide)⟩

/-- C9 counterexample: listing `alpha` twice in the configuration produces a
records mapping with a single record but a feed with two items, so the feed
does not contain exactly one item per produced record. -/
theorem duplicate_package_two_items_one_record :
    recsLenOf (runPackages cN 0 ["alpha", "alpha"] ([], [])) = some 1 ∧
      itemsLenOf (runPackages cN 0 ["alpha", "alpha"] ([], [])) = some 2 :=
  ⟨by decide, by decide⟩

end PyPiVersions
